import Mathlib

/-!
Verification development for the cnative/pkg server runtime.

The Go sources are embedded shallowly:
  * Go strings are modelled as `List Char`; Go string helpers
    (strings.SplitN, strings.Split, strings.EqualFold) are modelled as
    recursive functions with the semantics documented for the Go standard
    library (for the non-empty separators the code actually uses).
  * fallible Go calls (functions returning `(T, error)`) are modelled as
    `Except String T`;
  * the request context (`context.Context`) is modelled as a record holding
    exactly the values the auth package attaches to it;
  * external collaborators (the OIDC verifier, the pluggable resolver and
    authorizer functions) are fields of the runtime record, as in the source.
-/

/-- ASCII lower-casing of a character.  Go's strings.EqualFold performs
Unicode simple case folding; the only comparison in the sources is against
the ASCII literal "bearer", for which simple folding and ASCII folding
agree. -/
def asciiLower (c : Char) : Char :=
  if 'A' ≤ c ∧ c ≤ 'Z' then Char.ofNat (c.toNat + 32) else c

/-- Model of Go strings.EqualFold restricted to ASCII case folding. -/
def equalFold (a b : List Char) : Bool :=
  a.map asciiLower == b.map asciiLower

/-- The space character, written via its code point. -/
def spaceChar : Char := Char.ofNat 32

/-- Model of Go strings.SplitN(s, " ", 2): if `s` has no space it is
returned whole, otherwise the part before the first space and the part
after it. -/
def splitNTwoOnSpace (s : List Char) : List (List Char) :=
  match s.dropWhile (fun c => c ≠ spaceChar) with
  | [] => [s]
  | _ :: post => [s.takeWhile (fun c => c ≠ spaceChar), post]

/-- Model of Go strings.Split(s, sep) for a non-empty separator: greedy
left-to-right scan, splitting at each non-overlapping occurrence of
`sep`.  (The sources only ever call it with the separators " " and
"Bearer"; the empty-separator case of the Go function is never
exercised and is mapped to `[s]` here.) -/
def goSplit (sep s : List Char) : List (List Char) :=
  if hsep0 : sep = [] then [s]
  else
    match s with
    | [] => [[]]
    | c :: rest =>
      if sep.isPrefixOf (c :: rest) then
        [] :: goSplit sep ((c :: rest).drop sep.length)
      else
        match goSplit sep rest with
        | [] => [[c]]
        | hd :: tl => (c :: hd) :: tl
termination_by s.length
decreasing_by
  · simp only [List.length_drop, List.length_cons]
    have : 0 < sep.length := List.length_pos.mpr hsep0
    omega
  · simp

/-- Number of (non-overlapping, leftmost-first) occurrences of `sep` in
`s`; this mirrors Go strings.Count for a non-empty separator and is used
only to state claims about `goSplit`. -/
def countOccur (sep s : List Char) : Nat :=
  if _hsep : sep = [] then 0
  else
    match s with
    | [] => 0
    | c :: rest =>
      if sep.isPrefixOf (c :: rest) then
        countOccur sep ((c :: rest).drop sep.length) + 1
      else
        countOccur sep rest
termination_by s.length
decreasing_by
  · simp only [List.length_drop, List.length_cons]
    have : 0 < sep.length := List.length_pos.mpr (by assumption)
    omega
  · simp

theorem isPrefixOf_exists {a b : List Char} (h : a.isPrefixOf b) :
    ∃ t, b = a ++ t := by
  induction a generalizing b with
  | nil => exact ⟨b, rfl⟩
  | cons x xs ih =>
    match b with
    | [] => simp [List.isPrefixOf] at h
    | y :: ys =>
      simp only [List.isPrefixOf, Bool.and_eq_true, beq_iff_eq] at h
      obtain ⟨hx, hp⟩ := h
      obtain ⟨t, ht⟩ := ih hp
      exact ⟨t, by simp [hx, ht]⟩

theorem isPrefixOf_append (a t : List Char) : a.isPrefixOf (a ++ t) := by
  induction a with
  | nil => simp [List.isPrefixOf]
  | cons x xs ih => simp [List.isPrefixOf, ih]

theorem takeWhile_dropWhile_space (ty tok : List Char)
    (hty : spaceChar ∉ ty) :
    (ty ++ spaceChar :: tok).takeWhile (fun c => c ≠ spaceChar) = ty ∧
    (ty ++ spaceChar :: tok).dropWhile (fun c => c ≠ spaceChar) =
      spaceChar :: tok := by
  induction ty with
  | nil => simp [List.takeWhile_cons, List.dropWhile_cons]
  | cons x xs ih =>
    have hx : x ≠ spaceChar := by
      intro h
      exact hty (by simp [h])
    have hxs : spaceChar ∉ xs := fun h => hty (List.mem_cons_of_mem _ h)
    obtain ⟨h1, h2⟩ := ih hxs
    constructor
    · rw [List.cons_append, List.takeWhile_cons, if_pos (by simp [hx]), h1]
    · rw [List.cons_append, List.dropWhile_cons, if_pos (by simp [hx]), h2]

theorem dropWhile_cons_head_false (p : Char → Bool) (s : List Char)
    (d : Char) (post : List Char) (h : s.dropWhile p = d :: post) :
    p d = false := by
  induction s with
  | nil => simp [List.dropWhile] at h
  | cons x xs ih =>
    rw [List.dropWhile_cons] at h
    by_cases hx : p x
    · rw [if_pos hx] at h
      exact ih h
    · rw [if_neg hx] at h
      injection h with h1 h2
      subst h1
      simpa using hx

/-- splitNTwoOnSpace returns a pair exactly when the input decomposes at
its first space: the type part is space-free and the token part is
everything after the first space. -/
theorem splitNTwoOnSpace_eq_pair (s ty tok : List Char) :
    splitNTwoOnSpace s = [ty, tok] ↔
      s = ty ++ spaceChar :: tok ∧ spaceChar ∉ ty := by
  constructor
  · intro h
    unfold splitNTwoOnSpace at h
    match hdw : s.dropWhile (fun c => c ≠ spaceChar) with
    | [] => rw [hdw] at h; simp at h
    | d :: post =>
      rw [hdw] at h
      simp only [List.cons.injEq] at h
      obtain ⟨hty', htok', -⟩ := h
      have hd : d = spaceChar := by
        have := dropWhile_cons_head_false (fun c => c ≠ spaceChar) s d post hdw
        simpa using this
      subst hd
      subst htok'
      refine ⟨?_, ?_⟩
      · conv_lhs => rw [← List.takeWhile_append_dropWhile
          (fun c => c ≠ spaceChar) s]
        rw [hdw, hty']
      · intro hmem
        rw [← hty'] at hmem
        have := List.mem_takeWhile_imp hmem
        simp at this
  · rintro ⟨hs, hty⟩
    subst hs
    obtain ⟨h1, h2⟩ := takeWhile_dropWhile_space ty tok hty
    unfold splitNTwoOnSpace
    rw [h2, h1]

theorem intercalate_single (sep a : List Char) :
    List.intercalate sep [a] = a := by
  simp [List.intercalate, List.intersperse]

theorem intercalate_two (sep a b : List Char) (tl : List (List Char)) :
    List.intercalate sep (a :: b :: tl) =
      a ++ sep ++ List.intercalate sep (b :: tl) := by
  simp [List.intercalate, List.intersperse, List.append_assoc]

theorem goSplit_ne_nil (sep s : List Char) : goSplit sep s ≠ [] := by
  unfold goSplit
  split
  · simp
  · split
    · simp
    · split
      · simp
      · split <;> simp

theorem isPrefixOf_extend {a b t : List Char} (h : a.isPrefixOf b) :
    a.isPrefixOf (b ++ t) := by
  obtain ⟨u, hu⟩ := isPrefixOf_exists h
  subst hu
  rw [List.append_assoc]
  exact isPrefixOf_append a (u ++ t)

theorem countOccur_nil (sep : List Char) : countOccur sep [] = 0 := by
  unfold countOccur
  split <;> rfl

theorem countOccur_cons_pos (sep : List Char) (hsep : sep ≠ []) (c : Char)
    (rest : List Char) (hpre : sep.isPrefixOf (c :: rest)) :
    countOccur sep (c :: rest) =
      countOccur sep ((c :: rest).drop sep.length) + 1 := by
  conv_lhs => rw [countOccur.eq_def]
  simp [hsep, hpre]

theorem countOccur_cons_neg (sep : List Char) (hsep : sep ≠ []) (c : Char)
    (rest : List Char) (hpre : ¬ (sep.isPrefixOf (c :: rest) = true)) :
    countOccur sep (c :: rest) = countOccur sep rest := by
  conv_lhs => rw [countOccur.eq_def]
  simp [hsep, hpre]

theorem goSplit_nil_input (sep : List Char) (hsep : sep ≠ []) :
    goSplit sep [] = [[]] := by
  unfold goSplit
  simp [hsep]

theorem goSplit_cons_pos (sep : List Char) (hsep : sep ≠ []) (c : Char)
    (rest : List Char) (hpre : sep.isPrefixOf (c :: rest)) :
    goSplit sep (c :: rest) =
      [] :: goSplit sep ((c :: rest).drop sep.length) := by
  conv_lhs => rw [goSplit.eq_def]
  simp [hsep, hpre]

theorem goSplit_cons_neg (sep : List Char) (hsep : sep ≠ []) (c : Char)
    (rest hd : List Char) (tl : List (List Char))
    (hpre : ¬ (sep.isPrefixOf (c :: rest) = true))
    (hg : goSplit sep rest = hd :: tl) :
    goSplit sep (c :: rest) = (c :: hd) :: tl := by
  conv_lhs => rw [goSplit.eq_def]
  simp [hsep, hpre, hg]

/-- Main properties of `goSplit`, proved together: joining the parts with
the separator restores the input, the number of parts is the occurrence
count plus one, and no part contains an occurrence of the separator. -/
theorem goSplit_spec (sep : List Char) (hsep : sep ≠ []) :
    ∀ n s, s.length ≤ n →
      List.intercalate sep (goSplit sep s) = s ∧
      (goSplit sep s).length = countOccur sep s + 1 ∧
      ∀ part ∈ goSplit sep s, countOccur sep part = 0 := by
  intro n
  induction n with
  | zero =>
    intro s hs
    have hnil : s = [] := List.length_eq_zero.mp (Nat.le_zero.mp hs)
    subst hnil
    rw [goSplit_nil_input sep hsep, countOccur_nil]
    refine ⟨intercalate_single sep [], by simp, ?_⟩
    intro part hpart
    simp only [List.mem_singleton] at hpart
    subst hpart
    exact countOccur_nil sep
  | succ n ih =>
    intro s hs
    match s with
    | [] =>
      rw [goSplit_nil_input sep hsep, countOccur_nil]
      refine ⟨intercalate_single sep [], by simp, ?_⟩
      intro part hpart
      simp only [List.mem_singleton] at hpart
      subst hpart
      exact countOccur_nil sep
    | c :: rest =>
      by_cases hpre : sep.isPrefixOf (c :: rest)
      · rw [goSplit_cons_pos sep hsep c rest hpre,
          countOccur_cons_pos sep hsep c rest hpre]
        obtain ⟨t, ht⟩ := isPrefixOf_exists hpre
        have hdropt : (c :: rest).drop sep.length = t := by
          rw [ht]; exact List.drop_left sep t
        have htlen : t.length ≤ n := by
          have h1 : (c :: rest).length = sep.length + t.length := by
            rw [ht, List.length_append]
          have h2 : 0 < sep.length := List.length_pos.mpr hsep
          have h3 : (c :: rest).length ≤ n + 1 := hs
          omega
        obtain ⟨ihj, ihl, ihp⟩ := ih t htlen
        rw [hdropt]
        refine ⟨?_, by simp [ihl], ?_⟩
        · match hg : goSplit sep t with
          | [] => exact absurd hg (goSplit_ne_nil sep t)
          | hd :: tl =>
            rw [hg] at ihj
            rw [intercalate_two, ihj, ht]
            simp
        · intro part hpart
          rcases List.mem_cons.mp hpart with h | h
          · subst h
            exact countOccur_nil sep
          · exact ihp part h
      · have hrlen : rest.length ≤ n := by
          have : (c :: rest).length ≤ n + 1 := hs
          simp only [List.length_cons] at this
          omega
        obtain ⟨ihj, ihl, ihp⟩ := ih rest hrlen
        match hg : goSplit sep rest with
        | [] => exact absurd hg (goSplit_ne_nil sep rest)
        | hd :: tl =>
          rw [goSplit_cons_neg sep hsep c rest hd tl hpre hg,
            countOccur_cons_neg sep hsep c rest hpre]
          rw [hg] at ihj ihl
          have hdec : ∃ X, rest = hd ++ X := by
            match tl with
            | [] =>
              rw [intercalate_single] at ihj
              exact ⟨[], by simp [ihj]⟩
            | t2 :: tl' =>
              rw [intercalate_two] at ihj
              exact ⟨sep ++ List.intercalate sep (t2 :: tl'), by
                rw [← ihj]; simp [List.append_assoc]⟩
          have hnp : ¬ (sep.isPrefixOf (c :: hd) = true) := by
            intro hcontra
            obtain ⟨X, hX⟩ := hdec
            apply hpre
            have h2 : sep.isPrefixOf ((c :: hd) ++ X) = true :=
              isPrefixOf_extend hcontra
            rw [List.cons_append] at h2
            rw [hX]
            exact h2
          have hchunk : countOccur sep (c :: hd) = 0 := by
            rw [countOccur_cons_neg sep hsep c hd hnp]
            exact ihp hd (by rw [hg]; simp)
          refine ⟨?_, ?_, ?_⟩
          · match tl with
            | [] =>
              rw [intercalate_single] at ihj ⊢
              rw [ihj]
            | t2 :: tl' =>
              rw [intercalate_two] at ihj ⊢
              rw [← ihj]
              simp [List.append_assoc]
          · simp only [List.length_cons] at ihl ⊢
            omega
          · intro part hpart
            rcases List.mem_cons.mp hpart with h | h
            · subst h
              exact hchunk
            · exact ihp part (by rw [hg]; exact List.mem_cons_of_mem hd h)

/-! ## Auth data model (auth/claims.go, auth/context.go, auth/runtime.go) -/

/-- Decoded OpenID standard claims: the fields of the claims struct in
auth/claims.go that the runtime reads (the id resolver reads the email,
the admin-group mapping reads the groups; GetGroups maps a nil slice to
the empty list, which the List model gives for free). -/
structure GoClaims where
  subject : String := ""
  name : String := ""
  email : String := ""
  emailVerified : Bool := false
  locale : String := ""
  groups : List String := []
  additionalClaims : Option Unit := none
deriving Repr, DecidableEq

/-- The anonymous user constant of auth/context.go. -/
def Anonymous : String := "anonymous"

/-- Request context: the values the middleware and the auth runtime attach
to a context.Context.  `md` models the incoming gRPC metadata (key/value
pairs; `none` when the context carries no metadata at all), `authenticated`
the record attached after token verification and `authorized` the record
that newAuthorizedContext would attach. -/
structure Ctx where
  md : Option (List (String × List Char)) := none
  authenticated : Option String := none
  authorized : Option (List String) := none

/-- CurrentUser of auth/context.go: the attached identity, defaulting to
the anonymous user when no authenticated record is present. -/
def CurrentUser (ctx : Ctx) : String :=
  match ctx.authenticated with
  | some u => u
  | none => Anonymous

/-- CurrentUserRoles of auth/context.go: the attached role set; a nil Go
slice (returned when no authorized record is present) is modelled as the
empty list. -/
def CurrentUserRoles (ctx : Ctx) : List String :=
  match ctx.authorized with
  | some rs => rs
  | none => []

/-- newAuthorizedContext of auth/context.go (defined in the sources but
never called by the runtime). -/
def newAuthorizedContext (ctx : Ctx) (roles : List String) : Ctx :=
  { ctx with authorized := some roles }

/-- Modelled from the spec: the function newContext called by
runtime.Verify is not present in the sources (only its caller is); per
the spec the context returned by a successful Verify carries the
authenticated record with the resolved identity, retrievable via
CurrentUser. -/
def newContext (ctx : Ctx) (user : String) : Ctx :=
  { ctx with authenticated := some user }

/-- AuthorizationData of auth/runtime.go; the resource attribute map is
modelled as an association list. -/
structure AuthorizationData where
  roleBindings : List String := []
  resource : List (String × String) := []

/-- AuthorizationResult of auth/runtime.go. -/
structure AuthorizationResult where
  allowed : Bool := false
  resourceMatched : Bool := false
deriving Repr, DecidableEq

/-- AuthorizationRequest of auth/runtime.go. -/
structure AuthorizationRequest where
  app : String := ""
  service : String := ""
  subject : String := ""
  resource : String := ""
  action : String := ""
  resourceID : String := ""
  claims : GoClaims := {}
  data : AuthorizationData := {}

/-- Result of the external OIDC verifier for one token: the decode
outcomes of idt.Claims into the standard claims shape and (when an
additional-claims extension is configured) into the extension shape. -/
structure IdToken where
  stdClaims : Except String GoClaims
  additionalClaimsOk : Bool := true

/-- The default id resolver of auth/runtime.go. -/
def emailAsIDResolver (c : GoClaims) : String := c.email

/-- The runtime struct of auth/runtime.go, parameterized by the raw
request type; the external collaborators (OIDC verifier, pluggable
resolvers, decision function) are fields, as in the source. -/
structure AuthRuntime (Req : Type) where
  appName : String := ""
  serviceName : String := ""
  authorizer : Option (Ctx → AuthorizationRequest → Except String AuthorizationResult) := none
  verifier : Ctx → List Char → Except String IdToken := fun _ _ => Except.error "no verifier"
  idResolver : GoClaims → String := emailAsIDResolver
  additionalClaimsProvider : Bool := false
  roleBindingResolver : Option (Ctx → String → Except String (List String)) := none
  resourceResolver : Option (Ctx → String → String → String → String → Except String (List (String × String))) := none
  resourceIdentifier : Option (Ctx → Req → Except String String) := none
  adminGroup : String := ""
  adminRole : String := ""

/-- hasExternalAdminGroupMapping of auth/runtime.go: some claimed group
equals the configured admin group and that group is non-empty. -/
def hasExternalAdminGroupMapping {Req : Type} (r : AuthRuntime Req)
    (claims : GoClaims) : Bool :=
  claims.groups.any (fun g => r.adminGroup != "" && r.adminGroup == g)

/-- Insertion into the role set; models the insert into the
map-with-unit-values mroles (a set of role names) of runtime.Authorize. -/
def insertUnique (acc : List String) (x : String) : List String :=
  if x ∈ acc then acc else acc ++ [x]

/-- The resource-identifier step of runtime.Authorize: when no
resource-identifier function is configured the incoming resource id stays
the empty string. -/
def resolveResourceID {Req : Type} (r : AuthRuntime Req) (ctx : Ctx)
    (req : Req) : Except String String :=
  match r.resourceIdentifier with
  | none => Except.ok ""
  | some g => g ctx req

/-- The role-binding step of runtime.Authorize: when no resolver is
configured no bound roles are added. -/
def resolveRoleBindings {Req : Type} (r : AuthRuntime Req) (ctx : Ctx)
    (subject : String) : Except String (List String) :=
  match r.roleBindingResolver with
  | none => Except.ok []
  | some f => f ctx subject

/-- The resource-attributes step of runtime.Authorize: when no resource
resolver is configured the attribute map stays nil (empty). -/
def resolveResourceInfo {Req : Type} (r : AuthRuntime Req) (ctx : Ctx)
    (subject resource action resourceID : String) :
    Except String (List (String × String)) :=
  match r.resourceResolver with
  | none => Except.ok []
  | some f => f ctx subject resource action resourceID

/-- runtime.Authorize of auth/runtime.go.  Returns the (unchanged)
context together with the result or error, mirroring the Go return
values; each resolver error aborts before the decision function runs. -/
def Authorize {Req : Type} (r : AuthRuntime Req) (ctx : Ctx)
    (claims : GoClaims) (resource action : String) (req : Req) :
    Ctx × Except String AuthorizationResult :=
  match r.authorizer with
  | none => (ctx, Except.ok {})
  | some authz =>
    let mroles0 : List String :=
      if hasExternalAdminGroupMapping r claims then [r.adminRole] else []
    match resolveResourceID r ctx req with
    | Except.error e => (ctx, Except.error e)
    | Except.ok incomingResourceID =>
      let subject := CurrentUser ctx
      match resolveRoleBindings r ctx subject with
      | Except.error e => (ctx, Except.error e)
      | Except.ok boundRoles =>
        let roles := boundRoles.foldl insertUnique mroles0
        match resolveResourceInfo r ctx subject resource action incomingResourceID with
        | Except.error e => (ctx, Except.error e)
        | Except.ok resourceInfo =>
          let authzReq : AuthorizationRequest :=
            { app := r.appName
              service := r.serviceName
              subject := subject
              resource := resource
              resourceID := incomingResourceID
              action := action
              claims := claims
              data := { roleBindings := roles, resource := resourceInfo } }
          (ctx, authz ctx authzReq)

/-- runtime.Verify of auth/runtime.go: verify the token through the
external OIDC verifier, decode the standard claims (and the additional
claims when an extension is configured), then derive a context carrying
the resolved identity.  Failure returns no context (Go returns nil). -/
def Verify {Req : Type} (r : AuthRuntime Req) (ctx : Ctx)
    (token : List Char) : Except String (Ctx × GoClaims) :=
  match r.verifier ctx token with
  | Except.error e => Except.error ("id token verification failed: " ++ e)
  | Except.ok idt =>
    match idt.stdClaims with
    | Except.error e =>
      Except.error ("error resolving claims in identity token: " ++ e)
    | Except.ok cl =>
      if r.additionalClaimsProvider then
        if idt.additionalClaimsOk then
          Except.ok (newContext ctx
              (r.idResolver { cl with additionalClaims := some () }),
            { cl with additionalClaims := some () })
        else Except.error ("error resolving additional claim")
      else Except.ok (newContext ctx (r.idResolver cl), cl)

/-! ## gRPC middleware (server/middleware/grpc.go) -/

/-- The gRPC status codes the middleware uses. -/
inductive GrpcCode
  | ok
  | unauthenticated
  | permissionDenied
  | internal
deriving Repr, DecidableEq

/-- A gRPC status error: code plus message. -/
structure GrpcStatus where
  code : GrpcCode
  msg : String
deriving Repr, DecidableEq

/-- metadata.MD.Get: all values stored under a key (incoming keys are
already lower-cased by the gRPC transport). -/
def mdGet (md : List (String × List Char)) (k : String) : List (List Char) :=
  (md.filter (fun p => p.1 == k)).map (fun p => p.2)

def authorizationKey : String := "authorization"

def bearerWord : List Char := ['b', 'e', 'a', 'r', 'e', 'r']

/-- getTokenFromGRPCContext of server/middleware/grpc.go: requires
metadata with exactly one authorization header of the form
type-space-token whose type case-insensitively equals bearer; the token
is everything after the first space. -/
def getTokenFromGRPCContext (ctx : Ctx) : Except String (List Char) :=
  match ctx.md with
  | none => Except.error ("Context does not contain any metadata")
  | some md =>
    match mdGet md authorizationKey with
    | [hdr] =>
      match splitNTwoOnSpace hdr with
      | [ty, tok] =>
        if equalFold ty bearerWord then Except.ok tok
        else Except.error ("Only bearer tokens are supported")
      | _ => Except.error ("authorization header is not in type token format")
    | hs => Except.error ("Found " ++ toString hs.length ++ " authorization headers, expected 1")

/-- Events observable at the auth interceptor: completion of the Verify
phase (with success flag), completion of the Authorize phase (success
flag and decision), and invocation of the application handler. -/
inductive AuthEvent
  | verifyCompleted (ok : Bool)
  | authorizeCompleted (ok : Bool) (allowed : Bool)
  | handlerInvoked
deriving Repr, DecidableEq

/-- auth0 of server/middleware/grpc.go: extract the token, Verify, then
Authorize; token-extraction and verification failures map to an
unauthenticated status, authorization errors and denials map to a
permission-denied status.  The first component records the collaborator
calls that completed, in order. -/
def auth0 {Req : Type} (rt : AuthRuntime Req) (ctx : Ctx) (req : Req)
    (resource action : String) : List AuthEvent × Except GrpcStatus Ctx :=
  match getTokenFromGRPCContext ctx with
  | Except.error e => ([], Except.error ⟨GrpcCode.unauthenticated, e⟩)
  | Except.ok token =>
    match Verify rt ctx token with
    | Except.error e =>
      ([AuthEvent.verifyCompleted false],
        Except.error ⟨GrpcCode.unauthenticated, e⟩)
    | Except.ok (ctx1, c) =>
      match Authorize rt ctx1 c resource action req with
      | (_, Except.error e) =>
        ([AuthEvent.verifyCompleted true, AuthEvent.authorizeCompleted false false],
          Except.error ⟨GrpcCode.permissionDenied,
            "contact system administrator - " ++ e⟩)
      | (ctx2, Except.ok ar) =>
        if ar.allowed then
          ([AuthEvent.verifyCompleted true, AuthEvent.authorizeCompleted true true],
            Except.ok ctx2)
        else
          ([AuthEvent.verifyCompleted true,
            AuthEvent.authorizeCompleted true ar.allowed],
            Except.error ⟨GrpcCode.permissionDenied,
              "contact system administrator"⟩)

/-- The per-method authz annotation of api (resource and action declared
in method-level metadata). -/
structure Authz where
  resource : String := ""
  action : String := ""

/-- resourceActionResolver of server/middleware/grpc.go: look the method
up in the descriptor registry; a method with no annotation yields empty
resource and action strings. -/
def resourceActionResolver (methodName : String)
    (methodDescriptors : List (String × Option Authz)) : String × String :=
  match (methodDescriptors.lookup methodName).join with
  | some az => (az.resource, az.action)
  | none => ("", "")

/-- unaryAuth of server/middleware/grpc.go: resolve the declared
resource/action for the method, run auth0, and only on success hand the
new context to the application handler. -/
def unaryAuth {Req Resp : Type} (rt : AuthRuntime Req)
    (methodDescriptors : List (String × Option Authz)) (ctx : Ctx)
    (req : Req) (fullMethod : String)
    (handler : Ctx → Req → Except GrpcStatus Resp) :
    List AuthEvent × Except GrpcStatus Resp :=
  match auth0 rt ctx req
      (resourceActionResolver fullMethod methodDescriptors).1
      (resourceActionResolver fullMethod methodDescriptors).2 with
  | (evs, Except.error st) => (evs, Except.error st)
  | (evs, Except.ok newCtx) =>
    (evs ++ [AuthEvent.handlerInvoked], handler newCtx req)

/-! ## HTTP middleware (server/middleware/http.go) -/

/-- Outcome of the HTTP auth middleware: reject with 401, reject with
403, or serve the wrapped handler with the derived context. -/
inductive HttpOutcome
  | unauthorized
  | forbidden
  | handled (ctx : Ctx)

def bearerUpper : List Char := ['B', 'e', 'a', 'r', 'e', 'r']

/-- The part of HTTPRuntimeIDAuth after token extraction: Verify, then
Authorize with empty resource and action and a nil raw request; a verify
failure yields 401, an authorize error or deny yields 403. -/
def httpAuthAfterToken (rt : AuthRuntime Unit) (ctx : Ctx)
    (token : List Char) : HttpOutcome :=
  match Verify rt ctx token with
  | Except.error _ => HttpOutcome.unauthorized
  | Except.ok (ctx1, c) =>
    match Authorize rt ctx1 c "" "" () with
    | (_, Except.error _) => HttpOutcome.forbidden
    | (ctx2, Except.ok ar) =>
      if ar.allowed then HttpOutcome.handled ctx2 else HttpOutcome.forbidden

/-- HTTPRuntimeIDAuth of server/middleware/http.go: split the
Authorization header value on the literal Bearer; unless that yields
exactly two parts reject with 401, otherwise pass the second part (the
raw remainder, leading space included) to Verify.  The nil raw request
handed to Authorize is modelled by the unit request type. -/
def HTTPRuntimeIDAuth (rt : AuthRuntime Unit) (authHeader : List Char)
    (ctx : Ctx) : HttpOutcome :=
  match goSplit bearerUpper authHeader with
  | [_, tok] => httpAuthAfterToken rt ctx tok
  | _ => HttpOutcome.unauthorized

/-! ## Interceptor chain builder (server/middleware/grpc.go)

The Go chaining closure advances a mutable index `cur` before invoking the
next element and restores it afterwards; under the properly nested calls a
synchronous interceptor chain performs, the continuation handed to element
`cur` is exactly the function below at index `cur`: it invokes element
`cur+1`, or the real handler once the last element is reached. -/

/-- Shape of grpc.UnaryHandler: context and request to result (the Go
response-and-error pair is the abstract result type R). -/
def UnaryHandler (C Q R : Type) : Type := C → Q → R

/-- Shape of grpc.UnaryServerInterceptor. -/
def UnaryInterceptor (C Q I R : Type) : Type :=
  C → Q → I → UnaryHandler C Q R → R

/-- defaultUnaryInterceptor of server/middleware/grpc.go. -/
def defaultUnaryInterceptor {C Q I R : Type} : UnaryInterceptor C Q I R :=
  fun ctx req _ handler => handler ctx req

/-- The continuation the chaining closure presents while element `cur` is
executing: invoke the next interceptor, or the handler after the last. -/
def chainUnaryNext {C Q I R : Type} (l : List (UnaryInterceptor C Q I R))
    (info : I) (handler : UnaryHandler C Q R) (cur : Nat) :
    UnaryHandler C Q R :=
  fun ctx req =>
    if cur = l.length - 1 then handler ctx req
    else
      match hg : l.get? (cur + 1) with
      | some i => i ctx req info (chainUnaryNext l info handler (cur + 1))
      | none => handler ctx req
termination_by l.length - cur
decreasing_by
  have : cur + 1 < l.length := by
    have := List.get?_eq_some.mp hg
    exact this.1
  omega

/-- chainingUnaryInterceptor of server/middleware/grpc.go. -/
def chainingUnaryInterceptor {C Q I R : Type}
    (interceptors : List (UnaryInterceptor C Q I R)) :
    UnaryInterceptor C Q I R :=
  match interceptors with
  | [] => defaultUnaryInterceptor
  | [i] => i
  | i0 :: i1 :: rest =>
    fun ctx req info handler =>
      i0 ctx req info (chainUnaryNext (i0 :: i1 :: rest) info handler 0)

/-- Shape of grpc.StreamHandler: server and stream to error result. -/
def StreamHandler (S T E : Type) : Type := S → T → E

/-- Shape of grpc.StreamServerInterceptor. -/
def StreamInterceptor (S T I E : Type) : Type :=
  S → T → I → StreamHandler S T E → E

/-- defaultStreamInterceptor of server/middleware/grpc.go. -/
def defaultStreamInterceptor {S T I E : Type} : StreamInterceptor S T I E :=
  fun srv stream _ handler => handler srv stream

/-- The stream counterpart of the chaining continuation. -/
def chainStreamNext {S T I E : Type} (l : List (StreamInterceptor S T I E))
    (info : I) (handler : StreamHandler S T E) (cur : Nat) :
    StreamHandler S T E :=
  fun srv stream =>
    if cur = l.length - 1 then handler srv stream
    else
      match hg : l.get? (cur + 1) with
      | some i => i srv stream info (chainStreamNext l info handler (cur + 1))
      | none => handler srv stream
termination_by l.length - cur
decreasing_by
  have : cur + 1 < l.length := by
    have := List.get?_eq_some.mp hg
    exact this.1
  omega

/-- chainingStreamInterceptor of server/middleware/grpc.go. -/
def chainingStreamInterceptor {S T I E : Type}
    (interceptors : List (StreamInterceptor S T I E)) :
    StreamInterceptor S T I E :=
  match interceptors with
  | [] => defaultStreamInterceptor
  | [i] => i
  | i0 :: i1 :: rest =>
    fun srv stream info handler =>
      i0 srv stream info (chainStreamNext (i0 :: i1 :: rest) info handler 0)

/-! ## Server runtime (server/runtime.go): cmux matcher registration and Stop

The embedding follows the current variant of the file (the one whose
gateway uses grpc-gateway v2 and whose HTTP1 matchers include the PATCH
verb). -/

/-- The cmux matchers runtime.Start registers. -/
inductive Matcher
  | tls
  | http2GrpcContentType
  | http1Fast (withPatch : Bool)
  | anyTraffic
deriving Repr, DecidableEq

/-- Matchers registered, in order, on the root multiplexer over the raw
listener (runtime.Start): under TLS only the TLS matcher, otherwise the
HTTP1 matcher (PATCH included) followed by the catch-all used for gRPC. -/
def startRootMatchers (secure : Bool) : List Matcher :=
  if secure then [Matcher.tls]
  else [Matcher.http1Fast true, Matcher.anyTraffic]

/-- Matchers registered, in order, on the nested multiplexer over the
TLS-terminated listener (runtime.Start): first the gRPC HTTP/2
content-type matcher, then the HTTP1 matcher (PATCH included); no
catch-all is registered on the nested multiplexer. -/
def startNestedMatchers (secure : Bool) : List Matcher :=
  if secure then [Matcher.http2GrpcContentType, Matcher.http1Fast true]
  else []

/-- The matcher list evaluated against a terminated (decrypted or
plaintext) stream: the nested multiplexer when TLS is configured, the
root one otherwise. -/
def terminatedStreamMatchers (secure : Bool) : List Matcher :=
  if secure then startNestedMatchers secure else startRootMatchers secure

/-- Modelled from the spec: cmux (an external library) evaluates the
registered matchers in registration order and routes the connection to
the first whose predicate matches the buffered prefix. -/
def firstMatchIdx (regs : List Matcher) (mfn : Matcher → Bool) :
    Option Nat :=
  match regs with
  | [] => none
  | m :: rest =>
    if mfn m then some 0
    else (firstMatchIdx rest mfn).map (· + 1)

/-- The shutdown phases of runtime.Stop, in the order the code names
them. -/
inductive StopPhase
  | closeAPIHandlers
  | gatewayShutdown
  | grpcGracefulStop
  | htShutdown
  | healthStop
  | debugShutdown
  | daemonStop
  | shutdownHook
  | otlpStop
deriving Repr, DecidableEq

/-- The configuration flags runtime.Stop consults. -/
structure StopConfig where
  gwEnabled : Bool := false
  grpcEnabled : Bool := false
  htEnabled : Bool := false
  debugEnabled : Bool := false
  hasDaemon : Bool := false
  hasShutdownHook : Bool := false
  hasOtlpController : Bool := false

/-- The phases runtime.Stop executes up to and including the
health-server stop (the phase whose failure is fatal). -/
def stopTracePre (cfg : StopConfig) : List StopPhase :=
  [StopPhase.closeAPIHandlers]
    ++ (if cfg.gwEnabled then [StopPhase.gatewayShutdown] else [])
    ++ (if cfg.grpcEnabled then [StopPhase.grpcGracefulStop] else [])
    ++ (if cfg.htEnabled then [StopPhase.htShutdown] else [])
    ++ [StopPhase.healthStop]

/-- runtime.Stop as the ordered list of phases it executes.  `fails`
tells which phases report an error.  Every phase error is logged and the
sequence continues, except the health-server stop: its error is reported
through the logger Fatal path, which (zap semantics) terminates the
process, so no later phase runs. -/
def stopTrace (cfg : StopConfig) (fails : StopPhase → Bool) :
    List StopPhase :=
  if fails StopPhase.healthStop then stopTracePre cfg
  else
    stopTracePre cfg
      ++ (if cfg.debugEnabled then [StopPhase.debugShutdown] else [])
      ++ (if cfg.hasDaemon then [StopPhase.daemonStop] else [])
      ++ (if cfg.hasShutdownHook then [StopPhase.shutdownHook] else [])
      ++ (if cfg.hasOtlpController then [StopPhase.otlpStop] else [])

/-- The shutdown timeout ceiling, in seconds, runtime.Stop applies to a
phase (context.WithTimeout over 30 seconds), where it applies one. -/
def phaseTimeout : StopPhase → Option Nat
  | StopPhase.gatewayShutdown => some 30
  | StopPhase.htShutdown => some 30
  | StopPhase.debugShutdown => some 30
  | StopPhase.daemonStop => some 30
  | StopPhase.shutdownHook => some 30
  | StopPhase.otlpStop => some 30
  | _ => none

/-! ## Claim theorems -/

/-- C1: for every context, claims, resource string, action string and raw
request, if no authorizer decision function is configured on the auth
runtime, Authorize returns the zero AuthorizationResult (allowed false)
and no error. -/
theorem C1_authorize_default_deny {Req : Type} (r : AuthRuntime Req)
    (h : r.authorizer = none) (ctx : Ctx) (claims : GoClaims)
    (resource action : String) (req : Req) :
    Authorize r ctx claims resource action req =
      (ctx, Except.ok { allowed := false, resourceMatched := false }) := by
  unfold Authorize
  rw [h]

/-- Witness for C1 at a concrete runtime with no authorizer. -/
theorem C1_authorize_default_deny_witness :
    @Authorize Unit {} {} {} ("doc") ("trim") () =
      ({}, Except.ok { allowed := false, resourceMatched := false }) :=
  C1_authorize_default_deny {} rfl {} {} ("doc") ("trim") ()

/-- C6: token extraction from a gRPC context succeeds exactly when the
metadata holds exactly one authorization value of the shape
type-space-token with a case-insensitively bearer type, and then the
token is the substring after the first space. -/
theorem C6_grpc_token_extraction (ctx : Ctx) (tok : List Char) :
    getTokenFromGRPCContext ctx = Except.ok tok ↔
      ∃ md ty, ctx.md = some md ∧
        mdGet md authorizationKey = [ty ++ spaceChar :: tok] ∧
        spaceChar ∉ ty ∧ equalFold ty bearerWord = true := by
  constructor
  · intro h
    unfold getTokenFromGRPCContext at h
    split at h
    · exact absurd h (by simp)
    · rename_i md hmd
      split at h
      · rename_i hdr hhdr
        split at h
        · rename_i ty tk hsp
          split at h
          · rename_i hef
            simp only [Except.ok.injEq] at h
            subst h
            obtain ⟨hdec, hsf⟩ := (splitNTwoOnSpace_eq_pair hdr ty tk).mp hsp
            exact ⟨md, ty, hmd, by rw [hhdr, hdec], hsf, hef⟩
          · exact absurd h (by simp)
        · exact absurd h (by simp)
      · exact absurd h (by simp)
  · rintro ⟨md, ty, hmd, hhdr, hsf, hef⟩
    have hsp : splitNTwoOnSpace (ty ++ spaceChar :: tok) = [ty, tok] :=
      (splitNTwoOnSpace_eq_pair _ ty tok).mpr ⟨rfl, hsf⟩
    simp only [getTokenFromGRPCContext, hmd, hhdr, hsp, hef, if_true]

/-- Witness for C6 at a concrete metadata set: a single authorization
value Bearer-space-token yields exactly the token. -/
theorem C6_grpc_token_extraction_witness :
    getTokenFromGRPCContext
      { md := some [(authorizationKey,
          ['B', 'e', 'a', 'r', 'e', 'r', spaceChar, 'x', 'y'])] } =
      Except.ok ['x', 'y'] := by
  rw [C6_grpc_token_extraction]
  refine ⟨[(authorizationKey,
      ['B', 'e', 'a', 'r', 'e', 'r', spaceChar, 'x', 'y'])],
    ['B', 'e', 'a', 'r', 'e', 'r'], rfl, ?_, ?_, ?_⟩ <;> decide

/-- C10: the HTTP auth middleware rejects with status 401 unless the
Authorization header value contains exactly one occurrence of the
literal Bearer; when it does, everything after that occurrence
(separating space included) is handed verbatim to the Verify phase. -/
theorem C10_http_bearer_split (rt : AuthRuntime Unit) (ctx : Ctx)
    (hdr : List Char) :
    (countOccur bearerUpper hdr ≠ 1 →
      HTTPRuntimeIDAuth rt hdr ctx = HttpOutcome.unauthorized) ∧
    (countOccur bearerUpper hdr = 1 →
      ∃ pre tok, hdr = pre ++ bearerUpper ++ tok ∧
        countOccur bearerUpper pre = 0 ∧ countOccur bearerUpper tok = 0 ∧
        HTTPRuntimeIDAuth rt hdr ctx = httpAuthAfterToken rt ctx tok) := by
  have hbne : bearerUpper ≠ [] := by decide
  obtain ⟨hjoin, hlen, hparts⟩ :=
    goSplit_spec bearerUpper hbne hdr.length hdr le_rfl
  constructor
  · intro hcount
    match hg : goSplit bearerUpper hdr with
    | [] => exact absurd hg (goSplit_ne_nil bearerUpper hdr)
    | [x] => simp [HTTPRuntimeIDAuth, hg]
    | [x, y] =>
      rw [hg] at hlen
      simp at hlen
      omega
    | x :: y :: z :: t => simp [HTTPRuntimeIDAuth, hg]
  · intro hcount
    match hg : goSplit bearerUpper hdr with
    | [] => exact absurd hg (goSplit_ne_nil bearerUpper hdr)
    | [x] =>
      rw [hg] at hlen
      simp [hcount] at hlen
    | x :: y :: z :: t =>
      rw [hg] at hlen
      simp [hcount] at hlen
    | [x, y] =>
      refine ⟨x, y, ?_, ?_, ?_, ?_⟩
      · rw [hg] at hjoin
        rw [intercalate_two, intercalate_single] at hjoin
        exact hjoin.symm
      · exact hparts x (by rw [hg]; simp)
      · exact hparts y (by rw [hg]; simp)
      · simp [HTTPRuntimeIDAuth, hg]

theorem countOccur_bearer_example :
    countOccur bearerUpper
      ['B', 'e', 'a', 'r', 'e', 'r', spaceChar, 'z'] = 1 := by
  rw [countOccur_cons_pos bearerUpper (by decide) 'B'
      ['e', 'a', 'r', 'e', 'r', spaceChar, 'z'] (by decide)]
  have hdrop : List.drop bearerUpper.length
      ['B', 'e', 'a', 'r', 'e', 'r', spaceChar, 'z'] = [spaceChar, 'z'] := by
    decide
  rw [hdrop]
  rw [countOccur_cons_neg bearerUpper (by decide) spaceChar ['z'] (by decide)]
  rw [countOccur_cons_neg bearerUpper (by decide) 'z' [] (by decide)]
  rw [countOccur_nil]

/-- Witness for C10: a header with exactly one Bearer occurrence hands
the remainder (leading space included) to Verify. -/
theorem C10_http_bearer_split_witness :
    countOccur bearerUpper
      ['B', 'e', 'a', 'r', 'e', 'r', spaceChar, 'z'] = 1 ∧
    ∃ pre tok,
      ['B', 'e', 'a', 'r', 'e', 'r', spaceChar, 'z'] =
          pre ++ bearerUpper ++ tok ∧
        countOccur bearerUpper pre = 0 ∧ countOccur bearerUpper tok = 0 ∧
        HTTPRuntimeIDAuth {} ['B', 'e', 'a', 'r', 'e', 'r', spaceChar, 'z']
            {} =
          httpAuthAfterToken {} {} tok :=
  ⟨countOccur_bearer_example,
    (C10_http_bearer_split {} {}
      ['B', 'e', 'a', 'r', 'e', 'r', spaceChar, 'z']).2
      countOccur_bearer_example⟩

theorem mem_insertUnique (acc : List String) (b x : String) :
    x ∈ insertUnique acc b ↔ x ∈ acc ∨ x = b := by
  unfold insertUnique
  by_cases hb : b ∈ acc
  · rw [if_pos hb]
    constructor
    · exact Or.inl
    · rintro (h | h)
      · exact h
      · rw [h]; exact hb
  · rw [if_neg hb]
    simp

theorem nodup_insertUnique (acc : List String) (b : String)
    (h : acc.Nodup) : (insertUnique acc b).Nodup := by
  unfold insertUnique
  by_cases hb : b ∈ acc
  · rw [if_pos hb]; exact h
  · rw [if_neg hb]
    simp [List.nodup_append, h, hb]

theorem mem_foldl_insertUnique (roles : List String) :
    ∀ (acc : List String) (x : String),
      x ∈ roles.foldl insertUnique acc ↔ x ∈ acc ∨ x ∈ roles := by
  induction roles with
  | nil => intro acc x; simp
  | cons r rs ih =>
    intro acc x
    rw [List.foldl_cons, ih]
    rw [mem_insertUnique]
    constructor
    · rintro ((h | h) | h)
      · exact Or.inl h
      · exact Or.inr (by simp [h])
      · exact Or.inr (List.mem_cons_of_mem r h)
    · rintro (h | h)
      · exact Or.inl (Or.inl h)
      · rcases List.mem_cons.mp h with h | h
        · exact Or.inl (Or.inr h)
        · exact Or.inr h

theorem nodup_foldl_insertUnique (roles : List String) :
    ∀ acc : List String, acc.Nodup → (roles.foldl insertUnique acc).Nodup := by
  induction roles with
  | nil => intro acc h; exact h
  | cons r rs ih =>
    intro acc h
    rw [List.foldl_cons]
    exact ih (insertUnique acc r) (nodup_insertUnique acc r h)

theorem hasExternalAdminGroupMapping_iff {Req : Type} (r : AuthRuntime Req)
    (claims : GoClaims) :
    hasExternalAdminGroupMapping r claims = true ↔
      r.adminGroup ≠ "" ∧ r.adminGroup ∈ claims.groups := by
  unfold hasExternalAdminGroupMapping
  rw [List.any_eq_true]
  constructor
  · rintro ⟨g, hg, hcond⟩
    simp only [Bool.and_eq_true, bne_iff_ne, beq_iff_eq] at hcond
    exact ⟨hcond.1, by rw [hcond.2]; exact hg⟩
  · rintro ⟨hne, hmem⟩
    exact ⟨r.adminGroup, hmem, by simp [hne]⟩

/-- C3: whenever Authorize reaches the decision function, the role
bindings of the authorization request it hands over are exactly the
deduplicated union of the configured admin role (present if and only if
the non-empty configured admin group is among the claimed groups) and
the roles returned by the role-binding resolver; in particular the admin
role is present even for an empty resolver result, and no role repeats. -/
theorem C3_admin_role_union {Req : Type} (r : AuthRuntime Req) (ctx : Ctx)
    (claims : GoClaims) (resource action : String) (req : Req)
    (authz : Ctx → AuthorizationRequest → Except String AuthorizationResult)
    (hauthz : r.authorizer = some authz)
    (f : Ctx → String → Except String (List String))
    (hrbr : r.roleBindingResolver = some f)
    (boundRoles : List String)
    (hf : f ctx (CurrentUser ctx) = Except.ok boundRoles)
    (rid : String) (hrid : resolveResourceID r ctx req = Except.ok rid)
    (rinfo : List (String × String))
    (hrr : resolveResourceInfo r ctx (CurrentUser ctx) resource action rid =
      Except.ok rinfo) :
    ∃ q, Authorize r ctx claims resource action req = (ctx, authz ctx q) ∧
      (∀ x, x ∈ q.data.roleBindings ↔
        ((r.adminGroup ≠ "" ∧ r.adminGroup ∈ claims.groups) ∧
            x = r.adminRole) ∨
          x ∈ boundRoles) ∧
      q.data.roleBindings.Nodup := by
  have hrb : resolveRoleBindings r ctx (CurrentUser ctx) =
      Except.ok boundRoles := by
    unfold resolveRoleBindings
    rw [hrbr]
    exact hf
  unfold Authorize
  simp only [hauthz, hrid, hrb, hrr]
  refine ⟨_, rfl, ?_, ?_⟩
  · intro x
    rw [mem_foldl_insertUnique]
    by_cases hadm : hasExternalAdminGroupMapping r claims
    · rw [if_pos hadm]
      rw [hasExternalAdminGroupMapping_iff] at hadm
      simp [hadm, eq_comm]
    · rw [if_neg hadm]
      rw [hasExternalAdminGroupMapping_iff] at hadm
      simp [hadm]
  · by_cases hadm : hasExternalAdminGroupMapping r claims
    · rw [if_pos hadm]
      exact nodup_foldl_insertUnique boundRoles [r.adminRole] (by simp)
    · rw [if_neg hadm]
      exact nodup_foldl_insertUnique boundRoles [] (by simp)

/-- A concrete runtime for the C3 witness: admin group configured and
claimed, role-binding resolver returning the empty set. -/
def authRuntimeC3 : AuthRuntime Unit :=
  { authorizer := some (fun _ _ =>
      Except.ok { allowed := true, resourceMatched := false }),
    roleBindingResolver := some (fun _ _ => Except.ok []),
    adminGroup := "g",
    adminRole := "admin" }

/-- Witness for C3: with the admin group among the claimed groups and an
empty resolver result, the request handed to the decision function
carries exactly the admin role. -/
theorem C3_admin_role_union_witness :
    ∃ q : AuthorizationRequest,
      Authorize authRuntimeC3 {} { groups := ["g"] } ("doc") ("read") () =
        ({}, Except.ok { allowed := true, resourceMatched := false }) ∧
      (∀ x, x ∈ q.data.roleBindings ↔
        ((("g" : String) ≠ "" ∧ ("g" : String) ∈ ["g"]) ∧
            x = "admin") ∨
          x ∈ ([] : List String)) ∧
      q.data.roleBindings.Nodup :=
  C3_admin_role_union authRuntimeC3 {} { groups := ["g"] } ("doc") ("read")
    () (fun _ _ => Except.ok { allowed := true, resourceMatched := false })
    rfl (fun _ _ => Except.ok []) rfl [] rfl ("") rfl [] rfl

/-- A concrete runtime whose resource-identifier resolver fails. -/
def authRuntimeC4 : AuthRuntime Unit :=
  { authorizer := some (fun _ _ =>
      Except.ok { allowed := true, resourceMatched := false }),
    verifier := fun _ _ => Except.ok { stdClaims := Except.ok {} },
    resourceIdentifier := some (fun _ _ => Except.error ("boom")) }

/-- A concrete context carrying one bearer token header. -/
def ctxC4 : Ctx :=
  { md := some [(authorizationKey,
      ['B', 'e', 'a', 'r', 'e', 'r', spaceChar, 't'])] }

/-- Counterexample for C4: at this input a resolver error is surfaced at
the middleware boundary with the permission-denied code, not the
internal code the claim asserts. -/
theorem C4_resolver_error_not_internal :
    (auth0 authRuntimeC4 ctxC4 () ("") ("")).2 =
      Except.error ⟨GrpcCode.permissionDenied,
        "contact system administrator - boom"⟩ ∧
    GrpcCode.permissionDenied ≠ GrpcCode.internal :=
  ⟨rfl, by decide⟩

/-- C4 (amended): a resolver error aborts authorization immediately with
that error, independently of (and without consulting) the decision
function, and the middleware surfaces both resolver errors and explicit
denials as permission-denied-class errors. -/
theorem C4_resolver_error_aborts {Req : Type} :
    (∀ (r : AuthRuntime Req) (ctx : Ctx) (claims : GoClaims)
        (resource action : String) (req : Req) authz g e,
      r.authorizer = some authz → r.resourceIdentifier = some g →
      g ctx req = Except.error e →
      Authorize r ctx claims resource action req = (ctx, Except.error e)) ∧
    (∀ (r : AuthRuntime Req) (ctx : Ctx) (claims : GoClaims)
        (resource action : String) (req : Req) authz rid f e,
      r.authorizer = some authz →
      resolveResourceID r ctx req = Except.ok rid →
      r.roleBindingResolver = some f →
      f ctx (CurrentUser ctx) = Except.error e →
      Authorize r ctx claims resource action req = (ctx, Except.error e)) ∧
    (∀ (r : AuthRuntime Req) (ctx : Ctx) (claims : GoClaims)
        (resource action : String) (req : Req) authz rid boundRoles e,
      r.authorizer = some authz →
      resolveResourceID r ctx req = Except.ok rid →
      resolveRoleBindings r ctx (CurrentUser ctx) = Except.ok boundRoles →
      resolveResourceInfo r ctx (CurrentUser ctx) resource action rid =
        Except.error e →
      Authorize r ctx claims resource action req = (ctx, Except.error e)) ∧
    (∀ (rt : AuthRuntime Req) (ctx ctx1 ctx2 : Ctx) (c : GoClaims)
        (resource action : String) (req : Req) (token : List Char) e,
      getTokenFromGRPCContext ctx = Except.ok token →
      Verify rt ctx token = Except.ok (ctx1, c) →
      Authorize rt ctx1 c resource action req = (ctx2, Except.error e) →
      (auth0 rt ctx req resource action).2 =
        Except.error ⟨GrpcCode.permissionDenied,
          "contact system administrator - " ++ e⟩) ∧
    (∀ (rt : AuthRuntime Req) (ctx ctx1 ctx2 : Ctx) (c : GoClaims)
        (resource action : String) (req : Req) (token : List Char)
        (ar : AuthorizationResult),
      getTokenFromGRPCContext ctx = Except.ok token →
      Verify rt ctx token = Except.ok (ctx1, c) →
      Authorize rt ctx1 c resource action req = (ctx2, Except.ok ar) →
      ar.allowed = false →
      (auth0 rt ctx req resource action).2 =
        Except.error ⟨GrpcCode.permissionDenied,
          "contact system administrator"⟩) := by
  refine ⟨?_, ?_, ?_, ?_, ?_⟩
  · intro r ctx claims resource action req authz g e hauthz hg herr
    have hrid : resolveResourceID r ctx req = Except.error e := by
      unfold resolveResourceID
      rw [hg]
      exact herr
    unfold Authorize
    simp only [hauthz, hrid]
  · intro r ctx claims resource action req authz rid f e hauthz hrid hf herr
    have hrb : resolveRoleBindings r ctx (CurrentUser ctx) =
        Except.error e := by
      unfold resolveRoleBindings
      rw [hf]
      exact herr
    unfold Authorize
    simp only [hauthz, hrid, hrb]
  · intro r ctx claims resource action req authz rid boundRoles e hauthz
      hrid hrb herr
    unfold Authorize
    simp only [hauthz, hrid, hrb, herr]
  · intro rt ctx ctx1 ctx2 c resource action req token e htok hver hauth
    unfold auth0
    simp only [htok, hver, hauth]
  · intro rt ctx ctx1 ctx2 c resource action req token ar htok hver hauth
      hallow
    unfold auth0
    simp only [htok, hver, hauth, hallow]
    simp [hallow]

/-- Witness for C4 (amended): the failing resource identifier of the
concrete runtime aborts Authorize with its error. -/
theorem C4_resolver_error_aborts_witness :
    Authorize authRuntimeC4 {} {} ("") ("") () =
      ({}, Except.error ("boom")) :=
  (@C4_resolver_error_aborts Unit).1 authRuntimeC4 {} {} ("") ("")
    () _ _ ("boom") rfl rfl rfl

/-- The outcomes auth0 can produce: token extraction failed (empty
trace), verification failed, authorization completed without an allowed
result (error status), or the admitted path (success with a context). -/
theorem auth0_shapes {Req : Type} (rt : AuthRuntime Req) (ctx : Ctx)
    (req : Req) (resource action : String) :
    (∃ st, auth0 rt ctx req resource action = ([], Except.error st)) ∨
    (∃ st, auth0 rt ctx req resource action =
      ([AuthEvent.verifyCompleted false], Except.error st)) ∨
    (∃ st ok, auth0 rt ctx req resource action =
      ([AuthEvent.verifyCompleted true,
        AuthEvent.authorizeCompleted ok false], Except.error st)) ∨
    (∃ ctx2, auth0 rt ctx req resource action =
      ([AuthEvent.verifyCompleted true,
        AuthEvent.authorizeCompleted true true], Except.ok ctx2)) := by
  unfold auth0
  split
  · exact Or.inl ⟨_, rfl⟩
  · split
    · exact Or.inr (Or.inl ⟨_, rfl⟩)
    · split
      · exact Or.inr (Or.inr (Or.inl ⟨_, false, rfl⟩))
      · rename_i ctx2 ar heq2
        by_cases hal : ar.allowed
        · rw [if_pos hal]
          exact Or.inr (Or.inr (Or.inr ⟨ctx2, rfl⟩))
        · rw [if_neg hal]
          have hf : ar.allowed = false := by simpa using hal
          rw [hf]
          exact Or.inr (Or.inr (Or.inl ⟨_, true, rfl⟩))

/-- The traces the auth interceptor can produce: nothing completed
(token extraction failed), verification failed, verification succeeded
and authorization completed without success, or the full admitted path
ending in the handler invocation. -/
theorem unaryAuth_trace_shapes {Req Resp : Type} (rt : AuthRuntime Req)
    (mds : List (String × Option Authz)) (ctx : Ctx) (req : Req)
    (fullMethod : String)
    (handler : Ctx → Req → Except GrpcStatus Resp) :
    (unaryAuth rt mds ctx req fullMethod handler).1 = [] ∨
    (unaryAuth rt mds ctx req fullMethod handler).1 =
      [AuthEvent.verifyCompleted false] ∨
    (∃ ok, (unaryAuth rt mds ctx req fullMethod handler).1 =
      [AuthEvent.verifyCompleted true,
        AuthEvent.authorizeCompleted ok false]) ∨
    (unaryAuth rt mds ctx req fullMethod handler).1 =
      [AuthEvent.verifyCompleted true,
        AuthEvent.authorizeCompleted true true,
        AuthEvent.handlerInvoked] := by
  rcases auth0_shapes rt ctx req
      (resourceActionResolver fullMethod mds).1
      (resourceActionResolver fullMethod mds).2 with
    ⟨st, hsh⟩ | ⟨st, hsh⟩ | ⟨st, ok, hsh⟩ | ⟨ctx2, hsh⟩ <;>
    unfold unaryAuth <;> rw [hsh]
  · exact Or.inl rfl
  · exact Or.inr (Or.inl rfl)
  · exact Or.inr (Or.inr (Or.inl ⟨ok, rfl⟩))
  · exact Or.inr (Or.inr (Or.inr rfl))

/-- C2: in the gRPC auth interceptor, an authorize completion is always
preceded by a successful verify completion; a verification failure
rejects the request with an unauthenticated status, produces no
authorize or handler event and hands no context onward; and a
non-allowed authorization result means the application handler never
runs. -/
theorem C2_verify_before_authorize {Req Resp : Type} (rt : AuthRuntime Req)
    (mds : List (String × Option Authz)) (ctx : Ctx) (req : Req)
    (fullMethod : String)
    (handler : Ctx → Req → Except GrpcStatus Resp) :
    (∀ j ok allowed,
      (unaryAuth rt mds ctx req fullMethod handler).1.get? j =
          some (AuthEvent.authorizeCompleted ok allowed) →
      ∃ i, i < j ∧
        (unaryAuth rt mds ctx req fullMethod handler).1.get? i =
          some (AuthEvent.verifyCompleted true)) ∧
    (∀ token e,
      getTokenFromGRPCContext ctx = Except.ok token →
      Verify rt ctx token = Except.error e →
      unaryAuth rt mds ctx req fullMethod handler =
        ([AuthEvent.verifyCompleted false],
          Except.error ⟨GrpcCode.unauthenticated, e⟩)) ∧
    ((∃ ok, AuthEvent.authorizeCompleted ok false ∈
        (unaryAuth rt mds ctx req fullMethod handler).1) →
      AuthEvent.handlerInvoked ∉
        (unaryAuth rt mds ctx req fullMethod handler).1) := by
  refine ⟨?_, ?_, ?_⟩
  · intro j ok allowed hj
    rcases unaryAuth_trace_shapes rt mds ctx req fullMethod handler with
      hsh | hsh | ⟨ok2, hsh⟩ | hsh <;> rw [hsh] at hj ⊢
    · simp at hj
    · match j with
      | 0 => simp at hj
      | n + 1 => simp at hj
    · match j with
      | 0 => simp at hj
      | 1 => exact ⟨0, by omega, rfl⟩
      | n + 2 => simp at hj
    · match j with
      | 0 => simp at hj
      | 1 => exact ⟨0, by omega, rfl⟩
      | 2 => simp at hj
      | n + 3 => simp at hj
  · intro token e htok hver
    unfold unaryAuth auth0
    simp only [htok, hver]
  · rintro ⟨ok, hmem⟩
    rcases unaryAuth_trace_shapes rt mds ctx req fullMethod handler with
      hsh | hsh | ⟨ok2, hsh⟩ | hsh <;> rw [hsh] at hmem ⊢
    · simp at hmem
    · simp at hmem
    · simp
    · simp at hmem

/-- A concrete runtime whose external verifier rejects the (expired)
token. -/
def authRuntimeC2 : AuthRuntime Unit :=
  { verifier := fun _ _ => Except.error ("token is expired") }

/-- Witness for C2: with an expired token the interceptor rejects with
an unauthenticated status and neither Authorize nor the handler runs. -/
theorem C2_verify_before_authorize_witness :
    unaryAuth authRuntimeC2 [] ctxC4 () ("m")
        (fun c _ => Except.ok c.authenticated) =
      ([AuthEvent.verifyCompleted false],
        Except.error ⟨GrpcCode.unauthenticated,
          "id token verification failed: token is expired"⟩) :=
  (C2_verify_before_authorize authRuntimeC2 [] ctxC4 () ("m")
      (fun c _ => Except.ok c.authenticated)).2.1
    ['t'] ("id token verification failed: token is expired")
    (by rfl) rfl

/-- A concrete runtime whose role-binding resolver returns a non-empty
role set and whose authorizer allows the request. -/
def authRuntimeC9 : AuthRuntime Unit :=
  { authorizer := some (fun _ _ =>
      Except.ok { allowed := true, resourceMatched := false }),
    roleBindingResolver := some (fun _ _ => Except.ok ["admin"]) }

/-- Counterexample for C9: a successful Authorize with a non-empty
resolved role set hands back a context from which CurrentUserRoles reads
the default empty set, not the resolved roles — the authorized record is
never attached (the source marks this as a TODO). -/
theorem C9_roles_not_attached :
    (Authorize authRuntimeC9 {} {} ("") ("") ()).2 =
      Except.ok { allowed := true, resourceMatched := false } ∧
    CurrentUserRoles (Authorize authRuntimeC9 {} {} ("") ("") ()).1 = [] ∧
    ([] : List String) ≠ ["admin"] :=
  ⟨rfl, rfl, by decide⟩

/-- C9 (amended): the context returned by a successful Verify yields the
resolved identity through CurrentUser; Authorize returns its input
context unchanged, so no role set is ever attached (CurrentUserRoles
stays at its default); and on a context where a phase never ran the
lookups default to the anonymous identity and the empty role set. -/
theorem C9_context_records {Req : Type} :
    (∀ (rt : AuthRuntime Req) (ctx ctx1 : Ctx) (token : List Char)
        (c : GoClaims),
      Verify rt ctx token = Except.ok (ctx1, c) →
      CurrentUser ctx1 = rt.idResolver c) ∧
    (∀ (rt : AuthRuntime Req) (ctx : Ctx) (claims : GoClaims)
        (resource action : String) (req : Req),
      (Authorize rt ctx claims resource action req).1 = ctx) ∧
    (∀ ctx : Ctx, ctx.authenticated = none → CurrentUser ctx = Anonymous) ∧
    (∀ ctx : Ctx, ctx.authorized = none → CurrentUserRoles ctx = []) := by
  refine ⟨?_, ?_, ?_, ?_⟩
  · intro rt ctx ctx1 token c h
    unfold Verify at h
    split at h
    · exact absurd h (by simp)
    · split at h
      · exact absurd h (by simp)
      · rename_i cl
        split at h
        · split at h
          · simp only [Except.ok.injEq, Prod.mk.injEq] at h
            rw [← h.1, ← h.2]
            rfl
          · exact absurd h (by simp)
        · simp only [Except.ok.injEq, Prod.mk.injEq] at h
          rw [← h.1, ← h.2]
          rfl
  · intro rt ctx claims resource action req
    unfold Authorize
    rcases hA : rt.authorizer with _ | authz
    · simp [hA]
    · simp only [hA]
      rcases h1 : resolveResourceID rt ctx req with e | rid
      · simp [h1]
      · simp only [h1]
        rcases h2 : resolveRoleBindings rt ctx (CurrentUser ctx) with e | brs
        · simp [h2]
        · simp only [h2]
          rcases h3 : resolveResourceInfo rt ctx (CurrentUser ctx)
              resource action rid with e | ri
          · simp [h3]
          · simp [h3]
  · intro ctx h
    unfold CurrentUser
    rw [h]
  · intro ctx h
    unfold CurrentUserRoles
    rw [h]

/-- A concrete runtime whose verifier accepts the token with an email
claim. -/
def authRuntimeC9v : AuthRuntime Unit :=
  { verifier := fun _ _ => Except.ok
      { stdClaims := Except.ok { email := "alice@example.com" } } }

/-- Witness for C9 (amended): after a successful Verify the context
yields the resolved identity. -/
theorem C9_context_records_witness :
    CurrentUser (newContext {} ("alice@example.com")) =
      authRuntimeC9v.idResolver { email := "alice@example.com" } :=
  (@C9_context_records Unit).1 authRuntimeC9v {}
    (newContext {} ("alice@example.com")) ['t']
    { email := "alice@example.com" } (by rfl)

theorem chainUnaryNext_shift {C Q I R : Type} (a : UnaryInterceptor C Q I R)
    (l : List (UnaryInterceptor C Q I R)) (hne : l ≠ []) (info : I)
    (handler : UnaryHandler C Q R) :
    ∀ cur, chainUnaryNext (a :: l) info handler (cur + 1) =
      chainUnaryNext l info handler cur := by
  have hlen : 0 < l.length := List.length_pos.mpr hne
  have key : ∀ fuel cur, l.length - cur ≤ fuel →
      chainUnaryNext (a :: l) info handler (cur + 1) =
        chainUnaryNext l info handler cur := by
    intro fuel
    induction fuel with
    | zero =>
      intro cur hcur
      have hc : l.length ≤ cur := by omega
      funext ctx req
      conv_lhs => rw [chainUnaryNext.eq_def]
      conv_rhs => rw [chainUnaryNext.eq_def]
      rw [if_neg (by simp only [List.length_cons, Nat.add_sub_cancel]; omega),
        if_neg (by omega)]
      have hg1 : (a :: l).get? (cur + 1 + 1) = none := by
        rw [List.get?_eq_none]
        simp only [List.length_cons]
        omega
      have hg2 : l.get? (cur + 1) = none := by
        rw [List.get?_eq_none]
        omega
      rw [hg1, hg2]
    | succ n ih =>
      intro cur hcur
      by_cases hend : cur = l.length - 1
      · funext ctx req
        conv_lhs => rw [chainUnaryNext.eq_def]
        conv_rhs => rw [chainUnaryNext.eq_def]
        rw [if_pos (by simp only [List.length_cons, Nat.add_sub_cancel]; omega),
          if_pos hend]
      · funext ctx req
        conv_lhs => rw [chainUnaryNext.eq_def]
        conv_rhs => rw [chainUnaryNext.eq_def]
        rw [if_neg (by simp only [List.length_cons, Nat.add_sub_cancel]; omega),
          if_neg hend]
        rw [List.get?_cons_succ]
        rw [ih (cur + 1) (by omega)]
  intro cur
  exact key (l.length - cur) cur le_rfl

theorem chainUnaryNext_zero {C Q I R : Type} (a x : UnaryInterceptor C Q I R)
    (l' : List (UnaryInterceptor C Q I R)) (info : I)
    (handler : UnaryHandler C Q R) :
    chainUnaryNext (a :: x :: l') info handler 0 =
      fun c q => chainingUnaryInterceptor (x :: l') c q info handler := by
  funext c q
  conv_lhs => rw [chainUnaryNext.eq_def]
  rw [if_neg (by simp only [List.length_cons, Nat.add_sub_cancel]; omega)]
  simp only [List.get?_cons_succ, List.get?_cons_zero]
  rw [chainUnaryNext_shift a (x :: l') (by simp) info handler 0]
  match l' with
  | [] =>
    have hnx : chainUnaryNext [x] info handler 0 = handler := by
      funext ctx req
      conv_lhs => rw [chainUnaryNext.eq_def]
      rw [if_pos (by simp)]
    rw [hnx]
    rfl
  | y :: l'' => rfl

theorem chainingUnaryInterceptor_cons {C Q I R : Type}
    (a : UnaryInterceptor C Q I R) (l : List (UnaryInterceptor C Q I R)) :
    chainingUnaryInterceptor (a :: l) =
      fun ctx req info handler =>
        a ctx req info
          (fun c q => chainingUnaryInterceptor l c q info handler) := by
  match l with
  | [] => rfl
  | x :: l' =>
    funext ctx req info handler
    show a ctx req info (chainUnaryNext (a :: x :: l') info handler 0) = _
    rw [chainUnaryNext_zero]

theorem chainStreamNext_shift {S T I E : Type} (a : StreamInterceptor S T I E)
    (l : List (StreamInterceptor S T I E)) (hne : l ≠ []) (info : I)
    (handler : StreamHandler S T E) :
    ∀ cur, chainStreamNext (a :: l) info handler (cur + 1) =
      chainStreamNext l info handler cur := by
  have hlen : 0 < l.length := List.length_pos.mpr hne
  have key : ∀ fuel cur, l.length - cur ≤ fuel →
      chainStreamNext (a :: l) info handler (cur + 1) =
        chainStreamNext l info handler cur := by
    intro fuel
    induction fuel with
    | zero =>
      intro cur hcur
      have hc : l.length ≤ cur := by omega
      funext srv stream
      conv_lhs => rw [chainStreamNext.eq_def]
      conv_rhs => rw [chainStreamNext.eq_def]
      rw [if_neg (by simp only [List.length_cons, Nat.add_sub_cancel]; omega),
        if_neg (by omega)]
      have hg1 : (a :: l).get? (cur + 1 + 1) = none := by
        rw [List.get?_eq_none]
        simp only [List.length_cons]
        omega
      have hg2 : l.get? (cur + 1) = none := by
        rw [List.get?_eq_none]
        omega
      rw [hg1, hg2]
    | succ n ih =>
      intro cur hcur
      by_cases hend : cur = l.length - 1
      · funext srv stream
        conv_lhs => rw [chainStreamNext.eq_def]
        conv_rhs => rw [chainStreamNext.eq_def]
        rw [if_pos (by simp only [List.length_cons, Nat.add_sub_cancel]; omega),
          if_pos hend]
      · funext srv stream
        conv_lhs => rw [chainStreamNext.eq_def]
        conv_rhs => rw [chainStreamNext.eq_def]
        rw [if_neg (by simp only [List.length_cons, Nat.add_sub_cancel]; omega),
          if_neg hend]
        rw [List.get?_cons_succ]
        rw [ih (cur + 1) (by omega)]
  intro cur
  exact key (l.length - cur) cur le_rfl

theorem chainStreamNext_zero {S T I E : Type} (a x : StreamInterceptor S T I E)
    (l' : List (StreamInterceptor S T I E)) (info : I)
    (handler : StreamHandler S T E) :
    chainStreamNext (a :: x :: l') info handler 0 =
      fun s t => chainingStreamInterceptor (x :: l') s t info handler := by
  funext s t
  conv_lhs => rw [chainStreamNext.eq_def]
  rw [if_neg (by simp only [List.length_cons, Nat.add_sub_cancel]; omega)]
  simp only [List.get?_cons_succ, List.get?_cons_zero]
  rw [chainStreamNext_shift a (x :: l') (by simp) info handler 0]
  match l' with
  | [] =>
    have hnx : chainStreamNext [x] info handler 0 = handler := by
      funext srv stream
      conv_lhs => rw [chainStreamNext.eq_def]
      rw [if_pos (by simp)]
    rw [hnx]
    rfl
  | y :: l'' => rfl

theorem chainingStreamInterceptor_cons {S T I E : Type}
    (a : StreamInterceptor S T I E) (l : List (StreamInterceptor S T I E)) :
    chainingStreamInterceptor (a :: l) =
      fun srv stream info handler =>
        a srv stream info
          (fun s t => chainingStreamInterceptor l s t info handler) := by
  match l with
  | [] => rfl
  | x :: l' =>
    funext srv stream info handler
    show a srv stream info (chainStreamNext (a :: x :: l') info handler 0) = _
    rw [chainStreamNext_zero]

/-- A unary interceptor that tags the context on entry and the result on
exit; used to observe the nesting order of a composed chain. -/
def traceTag (name : String) :
    UnaryInterceptor (List String) Unit Unit (List String) :=
  fun ctx req _ next =>
    next (ctx ++ [name ++ "-enter"]) req ++ [name ++ "-exit"]

/-- A stream interceptor that tags the stream on entry; used to observe
the entry order of a composed chain. -/
def streamTag (name : String) :
    StreamInterceptor Unit (List String) Unit (List String) :=
  fun srv stream _ next => next srv (stream ++ [name])

/-- C5: composing zero interceptors is the passthrough to the handler;
composing one yields that interceptor unchanged; composing a list gives
the head interceptor a continuation running the composition of the tail
(so element i's continuation invokes element i+1 and the last
continuation invokes the real handler) — for both the unary and the
stream builder; consequently, in a two-element chain the first
interceptor observes the call before the second on entry and observes
the second's result on the way out, as the concrete traces show. -/
theorem C5_interceptor_chaining :
    (∀ (C Q I R : Type) (info : I) (handler : UnaryHandler C Q R)
        (ctx : C) (req : Q),
      chainingUnaryInterceptor [] ctx req info handler = handler ctx req) ∧
    (∀ (C Q I R : Type) (i : UnaryInterceptor C Q I R),
      chainingUnaryInterceptor [i] = i) ∧
    (∀ (C Q I R : Type) (a : UnaryInterceptor C Q I R)
        (l : List (UnaryInterceptor C Q I R)),
      chainingUnaryInterceptor (a :: l) =
        fun ctx req info handler =>
          a ctx req info
            (fun c q => chainingUnaryInterceptor l c q info handler)) ∧
    (∀ (S T I E : Type) (info : I) (handler : StreamHandler S T E)
        (srv : S) (stream : T),
      chainingStreamInterceptor [] srv stream info handler =
        handler srv stream) ∧
    (∀ (S T I E : Type) (i : StreamInterceptor S T I E),
      chainingStreamInterceptor [i] = i) ∧
    (∀ (S T I E : Type) (a : StreamInterceptor S T I E)
        (l : List (StreamInterceptor S T I E)),
      chainingStreamInterceptor (a :: l) =
        fun srv stream info handler =>
          a srv stream info
            (fun s t => chainingStreamInterceptor l s t info handler)) ∧
    chainingUnaryInterceptor [traceTag ("A"), traceTag ("B")] [] () ()
        (fun ctx _ => ctx ++ ["handler"]) =
      ["A-enter", "B-enter", "handler", "B-exit", "A-exit"] ∧
    chainingStreamInterceptor [streamTag ("A"), streamTag ("B")] () [] ()
        (fun _ st => st ++ ["handler"]) =
      ["A", "B", "handler"] := by
  refine ⟨?_, ?_, ?_, ?_, ?_, ?_, ?_, ?_⟩
  · intro C Q I R info handler ctx req
    rfl
  · intro C Q I R i
    rfl
  · intro C Q I R a l
    exact chainingUnaryInterceptor_cons a l
  · intro S T I E info handler srv stream
    rfl
  · intro S T I E i
    rfl
  · intro S T I E a l
    exact chainingStreamInterceptor_cons a l
  · rw [chainingUnaryInterceptor_cons]
    rfl
  · rw [chainingStreamInterceptor_cons]
    rfl

/-- Counterexample for C7: on the decrypted nested multiplexer of a
secure deployment the gRPC HTTP/2 content-type matcher is registered
first and the HTTP/1.1 matcher second, and no catch-all matcher exists
there, so the HTTP/1.1 matcher is not checked before the matcher that
takes the RPC-framed traffic. -/
theorem C7_nested_order_counterexample :
    terminatedStreamMatchers true =
      [Matcher.http2GrpcContentType, Matcher.http1Fast true] ∧
    Matcher.anyTraffic ∉ terminatedStreamMatchers true ∧
    ¬ (∃ i j, i < j ∧
        (∃ b, (terminatedStreamMatchers true).get? i =
          some (Matcher.http1Fast b)) ∧
        ((terminatedStreamMatchers true).get? j =
            some Matcher.http2GrpcContentType ∨
          (terminatedStreamMatchers true).get? j =
            some Matcher.anyTraffic)) := by
  refine ⟨by decide, by decide, ?_⟩
  rintro ⟨i, j, hij, ⟨b, hi⟩, hj⟩
  have hts : terminatedStreamMatchers true =
      [Matcher.http2GrpcContentType, Matcher.http1Fast true] := by decide
  rw [hts] at hi hj
  match i, hi with
  | 0, hi => simp at hi
  | 1, hi =>
    match j, hj with
    | 0, hj => omega
    | 1, hj => omega
    | n + 2, hj => simp at hj

/-- C7 (amended): the TLS matcher is the sole matcher registered on the
raw listener of a secure deployment; on the plaintext listener of an
insecure deployment the HTTP/1.1 matcher (PATCH included) is registered
before the final catch-all used for gRPC traffic; on the decrypted
nested multiplexer the gRPC HTTP/2 content-type matcher is registered
first and the HTTP/1.1 matcher (PATCH included) second, with no
catch-all; and evaluation picks the first registered matcher that
matches, so a connection matching an earlier matcher is never routed to
a later one. -/
theorem C7_matcher_registration :
    startRootMatchers true = [Matcher.tls] ∧
    terminatedStreamMatchers false =
      [Matcher.http1Fast true, Matcher.anyTraffic] ∧
    terminatedStreamMatchers true =
      [Matcher.http2GrpcContentType, Matcher.http1Fast true] ∧
    (∀ (regs : List Matcher) (mfn : Matcher → Bool) (i : Nat),
      firstMatchIdx regs mfn = some i →
      (∃ m, regs.get? i = some m ∧ mfn m = true) ∧
      (∀ k, k < i → ∀ m', regs.get? k = some m' → mfn m' = false)) := by
  refine ⟨by decide, by decide, by decide, ?_⟩
  intro regs
  induction regs with
  | nil =>
    intro mfn i h
    simp [firstMatchIdx] at h
  | cons m rest ih =>
    intro mfn i h
    unfold firstMatchIdx at h
    by_cases hm : mfn m
    · rw [if_pos hm] at h
      simp only [Option.some.injEq] at h
      subst h
      exact ⟨⟨m, rfl, hm⟩, fun k hk => by omega⟩
    · rw [if_neg hm] at h
      rcases Option.map_eq_some'.mp h with ⟨i', hi', hplus⟩
      obtain ⟨⟨m', hm', hmt⟩, hbefore⟩ := ih mfn i' hi'
      subst hplus
      refine ⟨⟨m', by simpa using hm', hmt⟩, ?_⟩
      intro k hk m2 hm2
      match k, hm2 with
      | 0, hm2 =>
        simp only [List.get?_cons_zero, Option.some.injEq] at hm2
        subst hm2
        simpa using hm
      | k' + 1, hm2 =>
        rw [List.get?_cons_succ] at hm2
        exact hbefore k' (by omega) m2 hm2

/-- Witness for C7 (amended): on the insecure terminated stream a
connection matching the HTTP/1.1 matcher is routed to it, not to the
later catch-all. -/
theorem C7_matcher_registration_witness :
    (∃ m, (terminatedStreamMatchers false).get? 0 = some m ∧
      (fun x => x == Matcher.http1Fast true) m = true) ∧
    (∀ k, k < 0 → ∀ m',
      (terminatedStreamMatchers false).get? k = some m' →
      (fun x => x == Matcher.http1Fast true) m' = false) :=
  C7_matcher_registration.2.2.2 (terminatedStreamMatchers false)
    (fun x => x == Matcher.http1Fast true) 0 (by decide)

/-- The numeric position of each phase in the order runtime.Stop names
them. -/
def phaseOrder : StopPhase → Nat
  | StopPhase.closeAPIHandlers => 0
  | StopPhase.gatewayShutdown => 1
  | StopPhase.grpcGracefulStop => 2
  | StopPhase.htShutdown => 3
  | StopPhase.healthStop => 4
  | StopPhase.debugShutdown => 5
  | StopPhase.daemonStop => 6
  | StopPhase.shutdownHook => 7
  | StopPhase.otlpStop => 8

/-- A configuration with every optional subsystem enabled. -/
def allStopConfig : StopConfig :=
  { gwEnabled := true, grpcEnabled := true, htEnabled := true,
    debugEnabled := true, hasDaemon := true, hasShutdownHook := true,
    hasOtlpController := true }

/-- Counterexample for C8: with everything enabled the gateway is shut
down before the gRPC server (the claim puts the gRPC stop first), and a
failing health-server stop prevents the enabled debug phase from running
(the claim says no phase failure prevents later phases). -/
theorem C8_stop_order_counterexample :
    ¬ ((stopTrace allStopConfig (fun _ => false)).indexOf
          StopPhase.grpcGracefulStop <
        (stopTrace allStopConfig (fun _ => false)).indexOf
          StopPhase.gatewayShutdown) ∧
    allStopConfig.debugEnabled = true ∧
    StopPhase.debugShutdown ∉
      stopTrace allStopConfig (fun p => p == StopPhase.healthStop) := by
  refine ⟨by decide, by decide, by decide⟩

/-- All nine phases in the order the code runs them. -/
def fullPhaseList : List StopPhase :=
  [StopPhase.closeAPIHandlers, StopPhase.gatewayShutdown,
    StopPhase.grpcGracefulStop, StopPhase.htShutdown,
    StopPhase.healthStop, StopPhase.debugShutdown, StopPhase.daemonStop,
    StopPhase.shutdownHook, StopPhase.otlpStop]

theorem sublist_if_singleton (c : Bool) (x : StopPhase) :
    (if c = true then [x] else []).Sublist [x] := by
  cases c <;> simp

theorem stopTracePre_sublist (cfg : StopConfig) :
    (stopTracePre cfg).Sublist
      [StopPhase.closeAPIHandlers, StopPhase.gatewayShutdown,
        StopPhase.grpcGracefulStop, StopPhase.htShutdown,
        StopPhase.healthStop] :=
  ((((List.Sublist.refl [StopPhase.closeAPIHandlers]).append
      (sublist_if_singleton cfg.gwEnabled StopPhase.gatewayShutdown)).append
      (sublist_if_singleton cfg.grpcEnabled StopPhase.grpcGracefulStop)).append
      (sublist_if_singleton cfg.htEnabled StopPhase.htShutdown)).append
    (List.Sublist.refl [StopPhase.healthStop])

theorem stopTrace_sublist (cfg : StopConfig) (fails : StopPhase → Bool) :
    (stopTrace cfg fails).Sublist fullPhaseList := by
  unfold stopTrace
  by_cases hfh : fails StopPhase.healthStop
  · rw [if_pos hfh]
    exact List.Sublist.trans (stopTracePre_sublist cfg)
      (List.sublist_append_left _
        [StopPhase.debugShutdown, StopPhase.daemonStop,
          StopPhase.shutdownHook, StopPhase.otlpStop])
  · rw [if_neg hfh]
    exact (((stopTracePre_sublist cfg).append
      (sublist_if_singleton cfg.debugEnabled StopPhase.debugShutdown)).append
      (sublist_if_singleton cfg.hasDaemon StopPhase.daemonStop)).append
      (sublist_if_singleton cfg.hasShutdownHook StopPhase.shutdownHook)
      |>.append
      (sublist_if_singleton cfg.hasOtlpController StopPhase.otlpStop)

theorem mem_if_singleton (c : Bool) (x y : StopPhase) :
    (x ∈ (if c = true then [y] else [])) ↔ (c = true ∧ x = y) := by
  cases c <;> simp

/-- C8 (amended): Stop runs, in order, the phases close-API-handlers,
gateway shutdown, gRPC graceful stop, HTTP shutdown, health stop, debug
shutdown, daemon stop, user shutdown hook, telemetry (OTLP) stop — the
gateway before the gRPC server; every trace respects this order; phase
failures do not change the trace except a health-stop failure, which is
fatal (the logger Fatal path) and makes the health phase the last one
executed; the gateway and HTTP shutdowns run under a 30-second timeout
ceiling. -/
theorem C8_stop_phases :
    stopTrace allStopConfig (fun _ => false) =
      [StopPhase.closeAPIHandlers, StopPhase.gatewayShutdown,
        StopPhase.grpcGracefulStop, StopPhase.htShutdown,
        StopPhase.healthStop, StopPhase.debugShutdown,
        StopPhase.daemonStop, StopPhase.shutdownHook,
        StopPhase.otlpStop] ∧
    (∀ (cfg : StopConfig) (fails : StopPhase → Bool),
      List.Chain' (fun p q => phaseOrder p < phaseOrder q)
        (stopTrace cfg fails)) ∧
    (∀ (cfg : StopConfig) (f g : StopPhase → Bool),
      f StopPhase.healthStop = g StopPhase.healthStop →
      stopTrace cfg f = stopTrace cfg g) ∧
    (∀ (cfg : StopConfig) (fails : StopPhase → Bool),
      fails StopPhase.healthStop = false →
      StopPhase.closeAPIHandlers ∈ stopTrace cfg fails ∧
      StopPhase.healthStop ∈ stopTrace cfg fails ∧
      (StopPhase.gatewayShutdown ∈ stopTrace cfg fails ↔
        cfg.gwEnabled = true) ∧
      (StopPhase.grpcGracefulStop ∈ stopTrace cfg fails ↔
        cfg.grpcEnabled = true) ∧
      (StopPhase.htShutdown ∈ stopTrace cfg fails ↔
        cfg.htEnabled = true) ∧
      (StopPhase.debugShutdown ∈ stopTrace cfg fails ↔
        cfg.debugEnabled = true) ∧
      (StopPhase.daemonStop ∈ stopTrace cfg fails ↔
        cfg.hasDaemon = true) ∧
      (StopPhase.shutdownHook ∈ stopTrace cfg fails ↔
        cfg.hasShutdownHook = true) ∧
      (StopPhase.otlpStop ∈ stopTrace cfg fails ↔
        cfg.hasOtlpController = true)) ∧
    (∀ (cfg : StopConfig) (fails : StopPhase → Bool),
      fails StopPhase.healthStop = true →
      (stopTrace cfg fails).getLast? = some StopPhase.healthStop) ∧
    phaseTimeout StopPhase.gatewayShutdown = some 30 ∧
    phaseTimeout StopPhase.htShutdown = some 30 := by
  refine ⟨by decide, ?_, ?_, ?_, ?_, by decide, by decide⟩
  · intro cfg fails
    have hfull : List.Pairwise (fun p q => phaseOrder p < phaseOrder q)
        fullPhaseList := by
      simp [fullPhaseList, List.pairwise_cons, phaseOrder]
    exact (hfull.sublist (stopTrace_sublist cfg fails)).chain'
  · intro cfg f g h
    simp only [stopTrace, h]
  · intro cfg fails hfh
    simp only [stopTrace, hfh, Bool.false_eq_true, if_false, stopTracePre,
      List.mem_append, mem_if_singleton, List.mem_singleton]
    simp
  · intro cfg fails hfh
    simp only [stopTrace, hfh, if_true, stopTracePre]
    rw [List.getLast?_concat]

/-- Witness for C8 (amended): a failure in a non-health phase leaves the
trace unchanged. -/
theorem C8_stop_phases_witness :
    stopTrace allStopConfig (fun _ => false) =
      stopTrace allStopConfig (fun p => p == StopPhase.debugShutdown) :=
  C8_stop_phases.2.2.1 allStopConfig (fun _ => false)
    (fun p => p == StopPhase.debugShutdown) (by decide)
